import Mathlib

/-!
Verification of the protocol layer of the tui_postman repository.

The repository's callers (main.rs, my_test_server.rs, tui.rs) use a small
HTTP-like library (message model, wire codec, router, client) whose sources
are not present; those parts are modelled from the specification, as marked
on each definition.  Rust strings are modelled as lists of characters
(the code only ever treats them as character sequences).
-/

abbrev Str := List Char

/-- Modelled from the spec: the closed method enumeration of the missing
rust_http message model (GET, POST, PUT, DELETE). -/
inductive HttpMethod
  | Get
  | Post
  | Put
  | Delete
  deriving DecidableEq

/-- Modelled from the spec: exact, case-sensitive textual form of a method. -/
def HttpMethod.to_token : HttpMethod → Str
  | .Get => "GET".data
  | .Post => "POST".data
  | .Put => "PUT".data
  | .Delete => "DELETE".data

/-- Modelled from the spec: method decoding; an unrecognized token is a
decode error (`none`), not a default. -/
def HttpMethod.from_token (t : Str) : Option HttpMethod :=
  if t = "GET".data then some .Get
  else if t = "POST".data then some .Post
  else if t = "PUT".data then some .Put
  else if t = "DELETE".data then some .Delete
  else none

/-- Modelled from the spec: a header is an ordered (key, value) pair. -/
structure HttpHeader where
  key : Str
  value : Str
  deriving DecidableEq

/-- Modelled from the spec: a request is method, endpoint, ordered header
sequence and body; equality is structural. -/
structure HttpRequest where
  method : HttpMethod
  endpoint : Str
  headers : List HttpHeader
  body : Str
  deriving DecidableEq

/-- Modelled from the spec: closed enumeration of standard status codes. -/
inductive ResponseCode
  | OK
  | BadRequest
  | NotFound
  | InternalServerError
  deriving DecidableEq

/-- Modelled from the spec: canonical numeric value of a status code. -/
def ResponseCode.code_number : ResponseCode → Nat
  | .OK => 200
  | .BadRequest => 400
  | .NotFound => 404
  | .InternalServerError => 500

/-- Modelled from the spec: canonical reason phrase of a status code. -/
def ResponseCode.reason : ResponseCode → Str
  | .OK => "OK".data
  | .BadRequest => "Bad Request".data
  | .NotFound => "Not Found".data
  | .InternalServerError => "Internal Server Error".data

/-- Modelled from the spec: the status line text `numeric/reason`. -/
def ResponseCode.status_text : ResponseCode → Str
  | .OK => "200/OK".data
  | .BadRequest => "400/Bad Request".data
  | .NotFound => "404/Not Found".data
  | .InternalServerError => "500/Internal Server Error".data

/-- Modelled from the spec: status decoding; an unknown status text is a
decode error (`none`). -/
def ResponseCode.from_status_text (t : Str) : Option ResponseCode :=
  if t = ResponseCode.OK.status_text then some .OK
  else if t = ResponseCode.BadRequest.status_text then some .BadRequest
  else if t = ResponseCode.NotFound.status_text then some .NotFound
  else if t = ResponseCode.InternalServerError.status_text then some .InternalServerError
  else none

/-- Modelled from the spec: a response is status code, ordered header
sequence and body; equality is structural. -/
structure HttpResponse where
  status_code : ResponseCode
  headers : List HttpHeader
  body : Str
  deriving DecidableEq

/-- Modelled from the spec: the decode-side error taxonomy (malformed
start/status line, malformed header line, missing blank-line separator). -/
inductive ParseError
  | malformedMethod
  | malformedHeader
  | malformedStatus
  | missingSeparator
  deriving DecidableEq

/-- Split a character list at the first occurrence of `sep`; `none` when
`sep` does not occur. -/
def split_first (sep : Char) : Str → Option (Str × Str)
  | [] => none
  | c :: rest =>
    if c = sep then some ([], rest)
    else (split_first sep rest).map fun p => (c :: p.1, p.2)

/-- Split a frame at the first blank-line separator (two consecutive
newlines); `none` when the frame has no separator. -/
def split_on_blank : Str → Option (Str × Str)
  | [] => none
  | [_] => none
  | c :: d :: rest =>
    if c = '\n' ∧ d = '\n' then some ([], rest)
    else (split_on_blank (d :: rest)).map fun p => (c :: p.1, p.2)

/-- Split the header section into its newline-separated lines. -/
def split_lines : Str → List Str
  | [] => [[]]
  | c :: rest =>
    if c = '\n' then [] :: split_lines rest
    else
      match split_lines rest with
      | [] => [[c]]
      | l :: ls => (c :: l) :: ls

/-- Join lines with single newlines (inverse of `split_lines` on
newline-free lines). -/
def join_lines : List Str → Str
  | [] => []
  | [l] => l
  | l :: ls => l ++ '\n' :: join_lines ls

/-- A header section is well-formed for splitting when it contains no two
consecutive newlines and does not end in a newline (so the appended
blank-line separator is the first one found). -/
def head_ok : Str → Bool
  | [] => true
  | [c] => if c = '\n' then false else true
  | c :: d :: rest => if c = '\n' ∧ d = '\n' then false else head_ok (d :: rest)

/-- Modelled from the spec: a header line `KEY: VALUE`. -/
def header_line (h : HttpHeader) : Str :=
  h.key ++ ':' :: ' ' :: h.value

/-- Drop the single space the encoder writes after the header colon. -/
def drop_colon_space : Str → Str
  | ' ' :: v => v
  | v => v

/-- Modelled from the spec: a pre-separator header line must contain a `:`
separator into (key, value); a line without `:` is a malformed header. -/
def parse_header_line (l : Str) : Except ParseError HttpHeader :=
  match split_first ':' l with
  | none => .error .malformedHeader
  | some p => .ok ⟨p.1, drop_colon_space p.2⟩

/-- Parse every pre-separator header line, failing on the first malformed
one. -/
def parse_headers : List Str → Except ParseError (List HttpHeader)
  | [] => .ok []
  | l :: ls =>
    match parse_header_line l with
    | .error e => .error e
    | .ok h =>
      match parse_headers ls with
      | .error e => .error e
      | .ok hs => .ok (h :: hs)

/-- The method token of a start line: everything before the first space
(the whole line when it has no space). -/
def method_token (l : Str) : Str :=
  match split_first ' ' l with
  | some p => p.1
  | none => l

/-- The endpoint part of a start line: everything after the first space. -/
def endpoint_of_line (l : Str) : Str :=
  match split_first ' ' l with
  | some p => p.2
  | none => []

/-- Modelled from the spec: the first line must parse as
`<Method> <endpoint...>`; an unknown method token is a malformed method. -/
def parse_start_line (l : Str) : Except ParseError (HttpMethod × Str) :=
  match HttpMethod.from_token (method_token l) with
  | some m => .ok (m, endpoint_of_line l)
  | none => .error .malformedMethod

/-- Modelled from the spec: the response status line must parse into a
known status code. -/
def parse_status_line (l : Str) : Except ParseError ResponseCode :=
  match ResponseCode.from_status_text l with
  | some c => .ok c
  | none => .error .malformedStatus

/-- The first pre-separator line of a frame's header section (the start or
status line); split_lines never returns an empty list, so the default is
never taken. -/
def first_line (head : Str) : Str :=
  (split_lines head).headD []

/-- The pre-separator header lines of a frame: every line of the header
section after the first. -/
def rest_lines (head : Str) : List Str :=
  (split_lines head).tail

/-- Modelled from the spec: request start line `METHOD SPACE ENDPOINT`. -/
def HttpRequest.start_line (r : HttpRequest) : Str :=
  r.method.to_token ++ ' ' :: r.endpoint

/-- Modelled from the spec: request encoding — start line, header lines,
blank-line separator, then the body verbatim. -/
def HttpRequest.to_string (r : HttpRequest) : Str :=
  join_lines (r.start_line :: r.headers.map header_line) ++ '\n' :: '\n' :: r.body

/-- Modelled from the spec: request decoding — split on the blank-line
separator, parse the first line as the start line and the remaining
pre-separator lines as headers; the literal remainder is the body. -/
def HttpRequest.from_string (s : Str) : Except ParseError HttpRequest :=
  match split_on_blank s with
  | none => .error .missingSeparator
  | some (head, body) =>
    match parse_start_line (first_line head) with
    | .error e => .error e
    | .ok (m, ep) =>
      match parse_headers (rest_lines head) with
      | .error e => .error e
      | .ok hs => .ok ⟨m, ep, hs, body⟩

/-- Modelled from the spec: response encoding — status line, header lines,
blank-line separator, then the body verbatim. -/
def HttpResponse.to_string (r : HttpResponse) : Str :=
  join_lines (r.status_code.status_text :: r.headers.map header_line) ++ '\n' :: '\n' :: r.body

/-- Modelled from the spec: response decoding — same header and body rules
as request decoding, with the status line in place of the start line. -/
def HttpResponse.from_string (s : Str) : Except ParseError HttpResponse :=
  match split_on_blank s with
  | none => .error .missingSeparator
  | some (head, body) =>
    match parse_status_line (first_line head) with
    | .error e => .error e
    | .ok c =>
      match parse_headers (rest_lines head) with
      | .error e => .error e
      | .ok hs => .ok ⟨c, hs, body⟩

/-- A valid request: the endpoint has no newline, header keys have no colon
and no newline, header values have no newline.  The body is unconstrained. -/
def ValidRequest (r : HttpRequest) : Prop :=
  '\n' ∉ r.endpoint ∧ ∀ h ∈ r.headers, ':' ∉ h.key ∧ '\n' ∉ h.key ∧ '\n' ∉ h.value

/-- A valid response: header keys have no colon and no newline, header
values have no newline.  The body is unconstrained. -/
def ValidResponse (r : HttpResponse) : Prop :=
  ∀ h ∈ r.headers, ':' ∉ h.key ∧ '\n' ∉ h.key ∧ '\n' ∉ h.value

instance (r : HttpRequest) : Decidable (ValidRequest r) := by
  unfold ValidRequest; infer_instance

instance (r : HttpResponse) : Decidable (ValidResponse r) := by
  unfold ValidResponse; infer_instance

/-- Modelled from the spec: a router table entry binding (path, method) to
a handler; handlers are pure functions from request to response. -/
structure RouteEntry where
  path : Str
  method : HttpMethod
  handle : HttpRequest → HttpResponse

/-- Modelled from the spec: the router is an ordered table of entries
(registration order defines the matching table). -/
structure Router where
  entries : List RouteEntry

/-- Modelled from the spec: a fresh router with an empty table. -/
def Router.new : Router := ⟨[]⟩

/-- Modelled from the spec: builder-style registration — appends the entry
and returns the router itself so registrations can be chained. -/
def Router.add_endpoint (r : Router) (path : Str) (m : HttpMethod)
    (handle : HttpRequest → HttpResponse) : Router :=
  ⟨r.entries ++ [⟨path, m, handle⟩]⟩

/-- Modelled from the spec: the built-in default handler returning a
404-equivalent response when no entry matches. -/
def not_found_handler (_ : HttpRequest) : HttpResponse :=
  ⟨ResponseCode.NotFound, [], "Not Found".data⟩

/-- First entry of the table whose (path, method) pair equals the given
pair exactly; `none` when no entry matches. -/
def find_entry (path : Str) (m : HttpMethod) : List RouteEntry → Option RouteEntry
  | [] => none
  | e :: rest =>
    if e.path = path ∧ e.method = m then some e
    else find_entry path m rest

/-- Modelled from the spec: dispatch by exact equality of the (path,
method) pair extracted from the request's endpoint and method fields; no
wildcard or prefix matching; the not-found handler when nothing matches. -/
def Router.resolve (r : Router) (req : HttpRequest) : HttpRequest → HttpResponse :=
  match find_entry req.endpoint req.method r.entries with
  | some e => e.handle
  | none => not_found_handler

/-- The example endpoint of my_test_server.rs: its process function returns
status OK, no headers, and the fixed JSON greeting body, for any request. -/
def FirstEndpoint.process (_ : HttpRequest) : HttpResponse :=
  ⟨ResponseCode.OK, [], "\x7b\"Hello,\": \" World!\"\x7d".data⟩

/-- The example endpoint's method tag from my_test_server.rs. -/
def FirstEndpoint.get_endpoint_type : HttpMethod := .Get

/-- The router that setup_my_server of my_test_server.rs populates: the
single registration of FirstEndpoint at path "/" (the endpoint supplies
its method tag); the registration itself is modelled from the spec's
add_endpoint contract since the Router sources are absent. -/
def my_server_router : Router :=
  Router.new.add_endpoint "/".data FirstEndpoint.get_endpoint_type FirstEndpoint.process

/-- Modelled from the spec: observable socket actions of one client call,
used to state the connection-per-call contract. -/
inductive NetEvent
  | connect (addr : Str)
  | write (data : Str)
  | read (data : Str)
  | close
  deriving DecidableEq

/-- Whether a network event is the opening of an outbound connection. -/
def NetEvent.is_connect : NetEvent → Bool
  | .connect _ => true
  | _ => false

/-- Modelled from the spec: the client's send — it opens one new outbound
connection to the target address, writes the encoded request, reads the
peer's complete reply, closes, and returns the decoded reply; a decode
failure is returned to the caller unchanged and nothing is retried.  The
peer is abstracted as a function from (address, raw request) to the raw
reply, and the socket actions are returned as an event trace. -/
def HttpClient.send (req : HttpRequest) (target : Str) (peer : Str → Str → Str) :
    Except ParseError HttpResponse × List NetEvent :=
  let raw := HttpRequest.to_string req
  let reply := peer target raw
  (HttpResponse.from_string reply,
   [NetEvent.connect target, NetEvent.write raw, NetEvent.read reply, NetEvent.close])

/-- The input-focus states of the TUI of tui.rs. -/
inductive InputMode
  | Normal
  | EditingUrl
  | EditingHeaders
  | EditingBody
  deriving DecidableEq

/-- The App state of tui.rs (the external client handle is omitted: none of
the modelled operations touch it). -/
structure App where
  url_input : Str
  headers_input : Str
  body_input : Str
  character_index : Nat
  input_mode : InputMode
  messages : List Str
  error_message : Option Str
  deriving DecidableEq

/-- The currently focused input of tui.rs get_current_input; `none` models
the panic on the Normal mode arm. -/
def App.get_current_input (a : App) : Option Str :=
  match a.input_mode with
  | .EditingBody => some a.body_input
  | .EditingHeaders => some a.headers_input
  | .EditingUrl => some a.url_input
  | .Normal => none

/-- Replace the currently focused input (the write through tui.rs
get_current_input_mut); only reached by callers that already observed a
focused input, so the Normal arm is never taken by the operations below. -/
def App.set_current_input (a : App) (s : Str) : App :=
  match a.input_mode with
  | .EditingBody => { a with body_input := s }
  | .EditingHeaders => { a with headers_input := s }
  | .EditingUrl => { a with url_input := s }
  | .Normal => a

/-- tui.rs clamp_cursor: clamp a cursor position to the character count of
the focused input (usize clamp(0, count) is min with count). -/
def App.clamp_cursor (a : App) (pos : Nat) : Option Nat :=
  (a.get_current_input).map fun s => min pos s.length

/-- tui.rs move_cursor_left: saturating decrement, then clamp. -/
def App.move_cursor_left (a : App) : Option App :=
  (a.clamp_cursor (a.character_index - 1)).map fun i => { a with character_index := i }

/-- tui.rs move_cursor_right: saturating increment, then clamp. -/
def App.move_cursor_right (a : App) : Option App :=
  (a.clamp_cursor (a.character_index + 1)).map fun i => { a with character_index := i }

/-- tui.rs byte_index: the insertion position for the cursor, which is the
character index clamped to the input's length (char_indices nth with
unwrap_or(len)). -/
def App.byte_index (a : App) : Option Nat :=
  (a.get_current_input).map fun s => min a.character_index s.length

/-- Insert a character at a position of a character list (position past the
end appends, matching byte_index's unwrap_or(len)). -/
def insert_at (s : Str) (i : Nat) (c : Char) : Str :=
  match i, s with
  | 0, s => c :: s
  | _ + 1, [] => [c]
  | n + 1, x :: xs => x :: insert_at xs n c

/-- tui.rs enter_char: insert the typed character at the byte index of the
focused input, clear the error message, and move the cursor right. -/
def App.enter_char (a : App) (c : Char) : Option App :=
  match a.get_current_input, a.byte_index with
  | some s, some i =>
    ({ a.set_current_input (insert_at s i c) with error_message := none }).move_cursor_right
  | _, _ => none

/-- tui.rs delete_char: a no-op when the cursor is leftmost; otherwise drop
the character left of the cursor (take before, skip from cursor), clear the
error message, and move the cursor left. -/
def App.delete_char (a : App) : Option App :=
  if a.character_index = 0 then some a
  else
    match a.get_current_input with
    | none => none
    | some s =>
      let s2 := s.take (a.character_index - 1) ++ s.drop a.character_index
      ({ a.set_current_input s2 with error_message := none }).move_cursor_left

/-- tui.rs reset_cursor: set the cursor to position zero. -/
def App.reset_cursor (a : App) : App :=
  { a with character_index := 0 }

theorem split_first_append (sep : Char) (k v : Str) (h : sep ∉ k) :
    split_first sep (k ++ sep :: v) = some (k, v) := by
  induction k with
  | nil => simp [split_first]
  | cons c k ih =>
    rw [List.mem_cons, not_or] at h
    have hc : ¬ c = sep := fun hcs => h.1 hcs.symm
    simp [split_first, hc, ih h.2]

theorem split_first_eq_none (sep : Char) (s : Str) (h : sep ∉ s) :
    split_first sep s = none := by
  induction s with
  | nil => rfl
  | cons c s ih =>
    rw [List.mem_cons, not_or] at h
    have hc : ¬ c = sep := fun hcs => h.1 hcs.symm
    simp [split_first, hc, ih h.2]

theorem split_on_blank_append (a b : Str) (h : head_ok a = true) :
    split_on_blank (a ++ '\n' :: '\n' :: b) = some (a, b) := by
  induction a with
  | nil => simp [split_on_blank]
  | cons c a ih =>
    cases a with
    | nil =>
      have hc : ¬ c = '\n' := by
        intro hc
        simp [head_ok, hc] at h
      simp [split_on_blank, hc]
    | cons d a' =>
      by_cases hcd : c = '\n' ∧ d = '\n'
      · simp [head_ok, hcd] at h
      · have h' : head_ok (d :: a') = true := by
          simpa [head_ok, hcd] using h
        have ih' := ih h'
        simp only [List.cons_append] at ih'
        simp [split_on_blank, hcd, ih']

theorem split_on_blank_eq {s a b : Str} (h : split_on_blank s = some (a, b)) :
    s = a ++ '\n' :: '\n' :: b := by
  induction s generalizing a b with
  | nil => simp [split_on_blank] at h
  | cons c s ih =>
    cases s with
    | nil => simp [split_on_blank] at h
    | cons d s' =>
      by_cases hcd : c = '\n' ∧ d = '\n'
      · simp [split_on_blank, hcd] at h
        obtain ⟨ha, hb⟩ := h
        subst ha
        subst hb
        simp [hcd.1, hcd.2]
      · simp only [split_on_blank, if_neg hcd, Option.map_eq_some'] at h
        obtain ⟨p, hp, hpe⟩ := h
        have hrec := ih (a := p.1) (b := p.2) (by rw [hp])
        have hpa : c :: p.1 = a := congrArg Prod.fst hpe
        have hpb : p.2 = b := congrArg Prod.snd hpe
        rw [← hpa, ← hpb]
        simp [hrec]

theorem split_on_blank_finds_sep {s a b : Str} (h : split_on_blank s = some (a, b)) :
    ['\n', '\n'] <:+: s := by
  rw [split_on_blank_eq h]
  exact ⟨a, b, by simp⟩

theorem split_on_blank_eq_none (s : Str) (h : ¬ (['\n', '\n'] <:+: s)) :
    split_on_blank s = none := by
  cases hs : split_on_blank s with
  | none => rfl
  | some p => exact absurd (split_on_blank_finds_sep (a := p.1) (b := p.2) (by rw [hs])) h

theorem head_ok_append (l t : Str) (h : '\n' ∉ l) : head_ok (l ++ t) = head_ok t := by
  induction l with
  | nil => rfl
  | cons c l ih =>
    rw [List.mem_cons, not_or] at h
    have hc : ¬ c = '\n' := fun hcs => h.1 hcs.symm
    cases hlt : l ++ t with
    | nil =>
      obtain ⟨hl, ht⟩ := List.append_eq_nil.mp hlt
      subst ht
      simp [head_ok, hc, hl]
    | cons d rest =>
      have : head_ok (c :: l ++ t) = head_ok (l ++ t) := by
        rw [List.cons_append, hlt]
        simp [head_ok, hc]
      rw [this, ih h.2]

theorem head_ok_newline (t : Str) (h1 : t ≠ []) (h2 : t.head? ≠ some '\n') :
    head_ok ('\n' :: t) = head_ok t := by
  cases t with
  | nil => exact absurd rfl h1
  | cons e w =>
    have he : ¬ e = '\n' := by
      intro he
      exact h2 (by rw [he]; rfl)
    simp [head_ok, he]

theorem head_ok_join (ls : List Str) (h0 : ls ≠ [])
    (h : ∀ l ∈ ls, l ≠ [] ∧ '\n' ∉ l) :
    head_ok (join_lines ls) = true ∧ join_lines ls ≠ [] ∧
      (join_lines ls).head? ≠ some '\n' := by
  induction ls with
  | nil => exact absurd rfl h0
  | cons l ls ih =>
    obtain ⟨hne, hnl⟩ := h l (by simp)
    cases ls with
    | nil =>
      refine ⟨?_, by simpa [join_lines] using hne, ?_⟩
      · have := head_ok_append l [] hnl
        simpa [join_lines] using this
      · cases l with
        | nil => exact absurd rfl hne
        | cons x xs =>
          rw [List.mem_cons, not_or] at hnl
          intro hx
          simp [join_lines] at hx
          exact hnl.1 hx.symm
    | cons l₂ ls' =>
      have hrec := ih (by simp) (fun x hx => h x (List.mem_cons_of_mem _ hx))
      have hjoin : join_lines (l :: l₂ :: ls') = l ++ '\n' :: join_lines (l₂ :: ls') := rfl
      refine ⟨?_, ?_, ?_⟩
      · rw [hjoin, head_ok_append l _ hnl, head_ok_newline _ hrec.2.1 hrec.2.2]
        exact hrec.1
      · rw [hjoin]
        simp
      · cases l with
        | nil => exact absurd rfl hne
        | cons x xs =>
          rw [List.mem_cons, not_or] at hnl
          intro hx
          simp [hjoin] at hx
          exact hnl.1 hx.symm

theorem split_lines_no_nl (l : Str) (h : '\n' ∉ l) : split_lines l = [l] := by
  induction l with
  | nil => rfl
  | cons c l ih =>
    rw [List.mem_cons, not_or] at h
    have hc : ¬ c = '\n' := fun hcs => h.1 hcs.symm
    simp [split_lines, hc, ih h.2]

theorem split_lines_append (l t : Str) (h : '\n' ∉ l) :
    split_lines (l ++ '\n' :: t) = l :: split_lines t := by
  induction l with
  | nil => simp [split_lines]
  | cons c l ih =>
    rw [List.mem_cons, not_or] at h
    have hc : ¬ c = '\n' := fun hcs => h.1 hcs.symm
    simp [split_lines, hc, ih h.2]

theorem split_lines_join (ls : List Str) (h0 : ls ≠ [])
    (h : ∀ l ∈ ls, '\n' ∉ l) : split_lines (join_lines ls) = ls := by
  induction ls with
  | nil => exact absurd rfl h0
  | cons l ls ih =>
    cases ls with
    | nil => simpa [join_lines] using split_lines_no_nl l (h l (by simp))
    | cons l₂ ls' =>
      have hjoin : join_lines (l :: l₂ :: ls') = l ++ '\n' :: join_lines (l₂ :: ls') := rfl
      rw [hjoin, split_lines_append l _ (h l (by simp)),
        ih (by simp) (fun x hx => h x (List.mem_cons_of_mem _ hx))]

theorem method_from_to_token (m : HttpMethod) :
    HttpMethod.from_token m.to_token = some m := by
  cases m <;> rfl

theorem to_token_no_space (m : HttpMethod) : ' ' ∉ m.to_token := by
  cases m <;> decide

theorem to_token_no_nl (m : HttpMethod) : '\n' ∉ m.to_token := by
  cases m <;> decide

theorem status_from_to_text (c : ResponseCode) :
    ResponseCode.from_status_text c.status_text = some c := by
  cases c <;> rfl

theorem status_text_ne_nil (c : ResponseCode) : c.status_text ≠ [] := by
  cases c <;> decide

theorem status_text_no_nl (c : ResponseCode) : '\n' ∉ c.status_text := by
  cases c <;> decide

theorem parse_start_line_round (m : HttpMethod) (ep : Str) :
    parse_start_line (m.to_token ++ ' ' :: ep) = .ok (m, ep) := by
  unfold parse_start_line method_token endpoint_of_line
  rw [split_first_append ' ' _ _ (to_token_no_space m)]
  simp [method_from_to_token]

theorem parse_header_line_round (x : HttpHeader) (hk : ':' ∉ x.key) :
    parse_header_line (header_line x) = .ok x := by
  unfold parse_header_line header_line
  rw [split_first_append ':' x.key (' ' :: x.value) hk]
  rfl

theorem parse_headers_round (hs : List HttpHeader) (h : ∀ x ∈ hs, ':' ∉ x.key) :
    parse_headers (hs.map header_line) = .ok hs := by
  induction hs with
  | nil => rfl
  | cons x hs ih =>
    have hline := parse_header_line_round x (h x (by simp))
    simp [parse_headers, hline, ih (fun y hy => h y (List.mem_cons_of_mem _ hy))]

theorem parse_headers_error (ls : List Str) (l : Str) (hl : l ∈ ls) (h : ':' ∉ l) :
    ∃ e, parse_headers ls = .error e := by
  induction ls with
  | nil => simp at hl
  | cons x ls ih =>
    rcases List.mem_cons.mp hl with rfl | hmem
    · exact ⟨.malformedHeader, by
        simp [parse_headers, parse_header_line, split_first_eq_none ':' l h]⟩
    · cases hx : parse_header_line x with
      | error e => exact ⟨e, by simp [parse_headers, hx]⟩
      | ok hh =>
        obtain ⟨e, he⟩ := ih hmem
        exact ⟨e, by simp [parse_headers, hx, he]⟩

theorem start_line_ne_nil (r : HttpRequest) : r.start_line ≠ [] := by
  simp [HttpRequest.start_line]

theorem start_line_no_nl (r : HttpRequest) (h : '\n' ∉ r.endpoint) :
    '\n' ∉ r.start_line := by
  intro hmem
  rcases List.mem_append.mp hmem with h1 | h2
  · exact to_token_no_nl r.method h1
  · rcases List.mem_cons.mp h2 with h3 | h4
    · exact absurd h3 (by decide)
    · exact h h4

theorem header_line_ne_nil (x : HttpHeader) : header_line x ≠ [] := by
  simp [header_line]

theorem header_line_no_nl (x : HttpHeader) (hk : '\n' ∉ x.key) (hv : '\n' ∉ x.value) :
    '\n' ∉ header_line x := by
  intro hmem
  rcases List.mem_append.mp hmem with h1 | h2
  · exact hk h1
  · rcases List.mem_cons.mp h2 with h3 | h4
    · exact absurd h3 (by decide)
    · rcases List.mem_cons.mp h4 with h5 | h6
      · exact absurd h5 (by decide)
      · exact hv h6

theorem first_rest_join (l : Str) (ls : List Str) (h : ∀ x ∈ l :: ls, '\n' ∉ x) :
    first_line (join_lines (l :: ls)) = l ∧ rest_lines (join_lines (l :: ls)) = ls := by
  unfold first_line rest_lines
  rw [split_lines_join _ (by simp) h]
  exact ⟨rfl, rfl⟩

theorem request_round_trip (r : HttpRequest) (h : ValidRequest r) :
    HttpRequest.from_string (HttpRequest.to_string r) = .ok r := by
  obtain ⟨hep, hhs⟩ := h
  have hlines : ∀ l ∈ r.start_line :: r.headers.map header_line,
      l ≠ [] ∧ '\n' ∉ l := by
    intro l hl
    rcases List.mem_cons.mp hl with rfl | hmem
    · exact ⟨start_line_ne_nil r, start_line_no_nl r hep⟩
    · obtain ⟨x, hx, rfl⟩ := List.mem_map.mp hmem
      obtain ⟨_, hxk, hxv⟩ := hhs x hx
      exact ⟨header_line_ne_nil x, header_line_no_nl x hxk hxv⟩
  have hjoin := head_ok_join _ (by simp) hlines
  have hfr := first_rest_join r.start_line (r.headers.map header_line)
    (fun l hm => (hlines l hm).2)
  unfold HttpRequest.to_string HttpRequest.from_string
  simp only [split_on_blank_append _ _ hjoin.1, hfr.1, hfr.2]
  have hstart : parse_start_line r.start_line = .ok (r.method, r.endpoint) := by
    rw [HttpRequest.start_line]
    exact parse_start_line_round r.method r.endpoint
  simp [hstart, parse_headers_round r.headers (fun x hx => (hhs x hx).1)]

theorem status_line_facts (p : HttpResponse) :
    parse_status_line p.status_code.status_text = .ok p.status_code := by
  unfold parse_status_line
  rw [status_from_to_text]

theorem response_round_trip (p : HttpResponse) (h : ValidResponse p) :
    HttpResponse.from_string (HttpResponse.to_string p) = .ok p := by
  have hlines : ∀ l ∈ p.status_code.status_text :: p.headers.map header_line,
      l ≠ [] ∧ '\n' ∉ l := by
    intro l hl
    rcases List.mem_cons.mp hl with rfl | hmem
    · exact ⟨status_text_ne_nil p.status_code, status_text_no_nl p.status_code⟩
    · obtain ⟨x, hx, rfl⟩ := List.mem_map.mp hmem
      obtain ⟨_, hxk, hxv⟩ := h x hx
      exact ⟨header_line_ne_nil x, header_line_no_nl x hxk hxv⟩
  have hjoin := head_ok_join _ (by simp) hlines
  have hfr := first_rest_join p.status_code.status_text (p.headers.map header_line)
    (fun l hm => (hlines l hm).2)
  unfold HttpResponse.to_string HttpResponse.from_string
  simp only [split_on_blank_append _ _ hjoin.1, hfr.1, hfr.2]
  simp [status_line_facts p, parse_headers_round p.headers (fun x hx => (h x hx).1)]

theorem find_entry_of_unique (entries : List RouteEntry) (path : Str) (m : HttpMethod)
    (e : RouteEntry) (he : e ∈ entries) (hp : e.path = path) (hm : e.method = m)
    (hu : ∀ e' ∈ entries, e'.path = path → e'.method = m → e' = e) :
    find_entry path m entries = some e := by
  induction entries with
  | nil => simp at he
  | cons x rest ih =>
    by_cases hx : x.path = path ∧ x.method = m
    · have hxe : x = e := hu x (by simp) hx.1 hx.2
      subst hxe
      simp only [find_entry]
      rw [if_pos hx]
    · have hxe : x ≠ e := by
        intro hxe
        subst hxe
        exact hx ⟨hp, hm⟩
      have he' : e ∈ rest := by
        rcases List.mem_cons.mp he with h1 | h1
        · exact absurd h1.symm hxe
        · exact h1
      simp [find_entry, hx,
        ih he' (fun e' h1 => hu e' (List.mem_cons_of_mem _ h1))]

theorem find_entry_of_no_match (entries : List RouteEntry) (path : Str) (m : HttpMethod)
    (h : ∀ e ∈ entries, ¬(e.path = path ∧ e.method = m)) :
    find_entry path m entries = none := by
  induction entries with
  | nil => rfl
  | cons x rest ih =>
    simp [find_entry, h x (by simp), ih (fun e h1 => h e (List.mem_cons_of_mem _ h1))]

theorem insert_at_length (s : Str) (i : Nat) (c : Char) :
    (insert_at s i c).length = s.length + 1 := by
  induction s generalizing i with
  | nil => cases i <;> rfl
  | cons x xs ih =>
    cases i with
    | zero => rfl
    | succ n => simp [insert_at, ih]

/-- C1: round-trip law — for every valid Request r (newline-free endpoint,
colon- and newline-free header keys, newline-free header values),
decode(encode(r)) reproduces r exactly, including header order and
duplicate header keys, and likewise for every valid Response; the body is
unconstrained, so it holds in particular for empty headers, empty body,
and bodies containing the delimiter characters of the grammar. -/
theorem encode_decode_round_trip :
    (∀ r : HttpRequest, ValidRequest r →
      HttpRequest.from_string (HttpRequest.to_string r) = .ok r) ∧
    (∀ p : HttpResponse, ValidResponse p →
      HttpResponse.from_string (HttpResponse.to_string p) = .ok p) :=
  ⟨request_round_trip, response_round_trip⟩

theorem encode_decode_round_trip_witness :
    HttpRequest.from_string (HttpRequest.to_string
      ⟨.Post, "/a".data, [⟨"k".data, "v".data⟩, ⟨"k".data, "w".data⟩],
        "x: y\n\nz".data⟩) =
      .ok ⟨.Post, "/a".data, [⟨"k".data, "v".data⟩, ⟨"k".data, "w".data⟩],
        "x: y\n\nz".data⟩ ∧
    HttpResponse.from_string (HttpResponse.to_string ⟨.OK, [], []⟩) =
      .ok ⟨.OK, [], []⟩ :=
  ⟨encode_decode_round_trip.1 _ (by decide), encode_decode_round_trip.2 _ (by decide)⟩

/-- C2: request decode fails with a ParseError exactly on malformed
grammar — empty input, input with no blank-line separator (no two
consecutive newlines), an unrecognized method token on the first
pre-separator line, or a pre-separator header line without a colon — and,
being a total function into Except, it never panics. -/
theorem request_decode_malformed_fails (s : Str) :
    (s = [] ∨ ¬ (['\n', '\n'] <:+: s) ∨
      (∃ head b, split_on_blank s = some (head, b) ∧
        HttpMethod.from_token (method_token (first_line head)) = none) ∨
      (∃ head b l, split_on_blank s = some (head, b) ∧
        l ∈ rest_lines head ∧ ':' ∉ l)) →
    ∃ e, HttpRequest.from_string s = .error e := by
  intro h
  rcases h with rfl | h | ⟨head, b, hsplit, hm⟩ | ⟨head, b, l, hsplit, hl, hcol⟩
  · exact ⟨.missingSeparator, rfl⟩
  · refine ⟨.missingSeparator, ?_⟩
    unfold HttpRequest.from_string
    rw [split_on_blank_eq_none s h]
  · refine ⟨.malformedMethod, ?_⟩
    unfold HttpRequest.from_string
    rw [hsplit]
    simp [parse_start_line, hm]
  · unfold HttpRequest.from_string
    rw [hsplit]
    cases hps : parse_start_line (first_line head) with
    | error e => exact ⟨e, by simp [hps]⟩
    | ok pr =>
      obtain ⟨m, ep⟩ := pr
      obtain ⟨e, he⟩ := parse_headers_error _ l hl hcol
      exact ⟨e, by simp [hps, he]⟩

theorem request_decode_malformed_fails_witness :
    (∃ e, HttpRequest.from_string [] = .error e) ∧
    (∃ e, HttpRequest.from_string "GET /".data = .error e) ∧
    (∃ e, HttpRequest.from_string "GETX /\n\n".data = .error e) ∧
    (∃ e, HttpRequest.from_string "GET /\nbadheader\n\n".data = .error e) :=
  ⟨request_decode_malformed_fails [] (Or.inl rfl),
   request_decode_malformed_fails _ (Or.inr (Or.inl (by decide))),
   request_decode_malformed_fails _ (Or.inr (Or.inr (Or.inl
     ⟨"GETX /".data, [], by decide, by decide⟩))),
   request_decode_malformed_fails _ (Or.inr (Or.inr (Or.inr
     ⟨"GET /\nbadheader".data, [], "badheader".data, by decide, by decide, by decide⟩)))⟩

/-- C3: response decode — an input whose pre-separator status line is not
a known status text decodes to a ParseError; each status code carries its
canonical numeric value, and its status text round-trips exactly; header
and body treatment is the same as for requests: the decoded body is the
post-separator remainder and the decoded headers are parse_headers of the
remaining pre-separator lines. -/
theorem response_decode_status_and_round_trip :
    (∀ c : ResponseCode, ResponseCode.from_status_text c.status_text = some c) ∧
    ResponseCode.OK.code_number = 200 ∧ ResponseCode.NotFound.code_number = 404 ∧
    ResponseCode.BadRequest.code_number = 400 ∧
    ResponseCode.InternalServerError.code_number = 500 ∧
    (∀ s head b, split_on_blank s = some (head, b) →
      ResponseCode.from_status_text (first_line head) = none →
      HttpResponse.from_string s = .error .malformedStatus) ∧
    (∀ s head b p, split_on_blank s = some (head, b) →
      HttpResponse.from_string s = .ok p →
      p.body = b ∧ parse_headers (rest_lines head) = .ok p.headers) := by
  refine ⟨status_from_to_text, rfl, rfl, rfl, rfl, ?_, ?_⟩
  · intro s head b hsplit hst
    unfold HttpResponse.from_string
    rw [hsplit]
    simp [parse_status_line, hst]
  · intro s head b p hsplit hok
    unfold HttpResponse.from_string at hok
    rw [hsplit] at hok
    cases hst : parse_status_line (first_line head) with
    | error e => simp [hst] at hok
    | ok c =>
      cases hh : parse_headers (rest_lines head) with
      | error e => simp [hst, hh] at hok
      | ok hs =>
        simp only [hst, hh] at hok
        have hpe : HttpResponse.mk c hs b = p := by
          simpa using hok
        subst hpe
        exact ⟨rfl, rfl⟩

theorem response_decode_status_and_round_trip_witness :
    HttpResponse.from_string "201/Created\n\n".data = .error .malformedStatus :=
  response_decode_status_and_round_trip.2.2.2.2.2.1 "201/Created\n\n".data
    "201/Created".data [] (by decide) (by decide)

/-- C4: body opacity of decode — whenever the input splits at the first
blank-line separator, the input is literally the header section, the
separator, and the remainder, and a successful request or response decode
returns exactly that remainder as the body (no truncation, no chunking),
even when the remainder contains colons or further blank lines. -/
theorem decode_body_opacity (s head b : Str) :
    split_on_blank s = some (head, b) →
    s = head ++ '\n' :: '\n' :: b ∧
    (∀ r, HttpRequest.from_string s = .ok r → r.body = b) ∧
    (∀ p, HttpResponse.from_string s = .ok p → p.body = b) := by
  intro hsplit
  refine ⟨split_on_blank_eq hsplit, ?_, ?_⟩
  · intro r hok
    unfold HttpRequest.from_string at hok
    rw [hsplit] at hok
    cases hps : parse_start_line (first_line head) with
    | error e => simp [hps] at hok
    | ok pr =>
      obtain ⟨m, ep⟩ := pr
      cases hh : parse_headers (rest_lines head) with
      | error e => simp [hps, hh] at hok
      | ok hs =>
        simp [hps, hh] at hok
        rw [← hok]
  · intro p hok
    unfold HttpResponse.from_string at hok
    rw [hsplit] at hok
    cases hst : parse_status_line (first_line head) with
    | error e => simp [hst] at hok
    | ok c =>
      cases hh : parse_headers (rest_lines head) with
      | error e => simp [hst, hh] at hok
      | ok hs =>
        simp [hst, hh] at hok
        rw [← hok]

theorem decode_body_opacity_witness :
    "GET /\n\nx: y\n\nz".data =
      "GET /".data ++ '\n' :: '\n' :: "x: y\n\nz".data ∧
    (HttpRequest.mk .Get "/".data [] "x: y\n\nz".data).body = "x: y\n\nz".data :=
  ⟨(decode_body_opacity "GET /\n\nx: y\n\nz".data "GET /".data "x: y\n\nz".data
      (by decide)).1,
   (decode_body_opacity "GET /\n\nx: y\n\nz".data "GET /".data "x: y\n\nz".data
      (by decide)).2.1 _ rfl⟩

/-- C5: router dispatch — when the request's (endpoint, method) pair
exactly equals the (path, method) of a registered entry (and no other
entry carries that pair), resolve returns that entry's handler; resolve is
a pure function of the table and the request, so repeated calls return the
same handler; when no entry matches, resolve returns the built-in
not-found handler, whose response carries the 404 status, regardless of
which other entries were registered and in what order; matching is exact
equality, with no wildcard or prefix matching. -/
theorem router_resolve_dispatch (rt : Router) (req : HttpRequest) :
    (∀ e, e ∈ rt.entries → e.path = req.endpoint → e.method = req.method →
      (∀ e' ∈ rt.entries, e'.path = req.endpoint → e'.method = req.method → e' = e) →
      rt.resolve req = e.handle) ∧
    ((∀ e ∈ rt.entries, ¬(e.path = req.endpoint ∧ e.method = req.method)) →
      rt.resolve req = not_found_handler ∧
      (rt.resolve req req).status_code = ResponseCode.NotFound ∧
      ResponseCode.NotFound.code_number = 404) := by
  constructor
  · intro e he hp hm hu
    unfold Router.resolve
    rw [find_entry_of_unique rt.entries req.endpoint req.method e he hp hm hu]
  · intro h
    unfold Router.resolve
    rw [find_entry_of_no_match rt.entries _ _ h]
    exact ⟨rfl, rfl, rfl⟩

theorem router_resolve_dispatch_witness :
    my_server_router.resolve ⟨.Get, "/".data, [], []⟩ = FirstEndpoint.process ∧
    (my_server_router.resolve ⟨.Post, "/missing".data, [], []⟩
      ⟨.Post, "/missing".data, [], []⟩).status_code = ResponseCode.NotFound := by
  constructor
  · exact (router_resolve_dispatch my_server_router ⟨.Get, "/".data, [], []⟩).1
      ⟨"/".data, FirstEndpoint.get_endpoint_type, FirstEndpoint.process⟩
      (by simp [my_server_router, Router.new, Router.add_endpoint]) rfl rfl
      (by
        intro e' he' _ _
        simpa [my_server_router, Router.new, Router.add_endpoint] using he')
  · exact ((router_resolve_dispatch my_server_router ⟨.Post, "/missing".data, [], []⟩).2
      (by
        intro e he
        simp only [my_server_router, Router.new, Router.add_endpoint,
          List.nil_append, List.mem_singleton] at he
        subst he
        simp)).2.1

/-- C6: the handler registered for GET / (FirstEndpoint) returns, for
every input request, a response with status OK, empty headers, and
exactly the JSON greeting body; dispatching a GET / request through the
server router and round-tripping the response through the wire codec
therefore hands the client that exact response. -/
theorem first_endpoint_scenario :
    (∀ req : HttpRequest, FirstEndpoint.process req =
      ⟨ResponseCode.OK, [], "\x7b\"Hello,\": \" World!\"\x7d".data⟩) ∧
    (∀ req : HttpRequest, req.endpoint = "/".data → req.method = .Get →
      HttpResponse.from_string (HttpResponse.to_string (my_server_router.resolve req req)) =
        .ok ⟨ResponseCode.OK, [], "\x7b\"Hello,\": \" World!\"\x7d".data⟩) := by
  constructor
  · intro req
    rfl
  · intro req hep hm
    have hres : my_server_router.resolve req = FirstEndpoint.process := by
      unfold Router.resolve
      rw [find_entry_of_unique my_server_router.entries req.endpoint req.method
        ⟨"/".data, FirstEndpoint.get_endpoint_type, FirstEndpoint.process⟩
        (by simp [my_server_router, Router.new, Router.add_endpoint])
        hep.symm hm.symm
        (by
          intro e' he' _ _
          simpa [my_server_router, Router.new, Router.add_endpoint] using he')]
    rw [hres]
    exact response_round_trip ⟨ResponseCode.OK, [], "\x7b\"Hello,\": \" World!\"\x7d".data⟩
      (by decide)

theorem first_endpoint_scenario_witness :
    HttpResponse.from_string (HttpResponse.to_string
      (my_server_router.resolve ⟨.Get, "/".data, [], []⟩ ⟨.Get, "/".data, [], []⟩)) =
    .ok ⟨ResponseCode.OK, [], "\x7b\"Hello,\": \" World!\"\x7d".data⟩ :=
  first_endpoint_scenario.2 ⟨.Get, "/".data, [], []⟩ rfl rfl

/-- C7: client send contract — each call produces an event trace that
opens exactly one outbound connection, to the target address, as its first
action (no pooling or reuse across calls, no retries), writes the encoded
request, reads the peer's complete reply, and returns its decode; a
decode failure of the reply is the call's result, surfaced to the caller
unchanged. -/
theorem client_send_contract (req : HttpRequest) (target : Str)
    (peer : Str → Str → Str) :
    (HttpClient.send req target peer).2.countP NetEvent.is_connect = 1 ∧
    (HttpClient.send req target peer).2.head? = some (NetEvent.connect target) ∧
    (HttpClient.send req target peer).2 =
      [NetEvent.connect target, NetEvent.write (HttpRequest.to_string req),
       NetEvent.read (peer target (HttpRequest.to_string req)), NetEvent.close] ∧
    (HttpClient.send req target peer).1 =
      HttpResponse.from_string (peer target (HttpRequest.to_string req)) ∧
    (∀ e, HttpResponse.from_string (peer target (HttpRequest.to_string req)) = .error e →
      (HttpClient.send req target peer).1 = .error e) := by
  refine ⟨?_, rfl, rfl, rfl, ?_⟩
  · simp [HttpClient.send, List.countP_cons, NetEvent.is_connect]
  · intro e he
    simpa [HttpClient.send] using he

theorem client_send_contract_witness :
    (HttpClient.send ⟨.Get, "/".data, [], []⟩ "127.0.0.1:8004".data
      (fun _ _ => [])).1 = .error .missingSeparator :=
  (client_send_contract ⟨.Get, "/".data, [], []⟩ "127.0.0.1:8004".data
    (fun _ _ => [])).2.2.2.2 .missingSeparator rfl

/-- C8: builder-style registration — add_endpoint returns the router
itself (with the entry appended), so the return value of one add_endpoint
call can receive the next, and chaining two calls yields the table with
both entries in registration order. -/
theorem add_endpoint_builder_chaining (r : Router) (p1 p2 : Str)
    (m1 m2 : HttpMethod) (h1 h2 : HttpRequest → HttpResponse) :
    ((r.add_endpoint p1 m1 h1).add_endpoint p2 m2 h2).entries =
      r.entries ++ [⟨p1, m1, h1⟩, ⟨p2, m2, h2⟩] := by
  simp [Router.add_endpoint]

/-- C9: TUI cursor invariant — in every App state whose focused input is s
with character_index ≤ length of s, each of move_cursor_left,
move_cursor_right and enter_char yields a state whose character_index is
again at most the length of the then-focused input, because clamp_cursor
clamps the new position to at most the focused input's character count. -/
theorem cursor_index_invariant (a : App) (s : Str)
    (hf : a.get_current_input = some s) (hb : a.character_index ≤ s.length) :
    (∀ a', a.move_cursor_left = some a' →
      ∃ s', a'.get_current_input = some s' ∧ a'.character_index ≤ s'.length) ∧
    (∀ a', a.move_cursor_right = some a' →
      ∃ s', a'.get_current_input = some s' ∧ a'.character_index ≤ s'.length) ∧
    (∀ c a', a.enter_char c = some a' →
      ∃ s', a'.get_current_input = some s' ∧ a'.character_index ≤ s'.length) := by
  obtain ⟨u, hh, b, ci, im, ms, em⟩ := a
  cases im with
  | Normal => exact absurd hf (by simp [App.get_current_input])
  | EditingUrl =>
    obtain rfl : u = s := by simpa [App.get_current_input] using hf
    refine ⟨?_, ?_, ?_⟩
    · intro a' h
      simp only [App.move_cursor_left, App.clamp_cursor, App.get_current_input,
        Option.map_some', Option.some.injEq] at h
      subst h
      exact ⟨u, rfl, Nat.min_le_right _ _⟩
    · intro a' h
      simp only [App.move_cursor_right, App.clamp_cursor, App.get_current_input,
        Option.map_some', Option.some.injEq] at h
      subst h
      exact ⟨u, rfl, Nat.min_le_right _ _⟩
    · intro c a' h
      simp only [App.enter_char, App.get_current_input, App.byte_index,
        App.set_current_input, App.move_cursor_right, App.clamp_cursor,
        Option.map_some', Option.some.injEq] at h
      subst h
      exact ⟨_, rfl, Nat.min_le_right _ _⟩
  | EditingHeaders =>
    obtain rfl : hh = s := by simpa [App.get_current_input] using hf
    refine ⟨?_, ?_, ?_⟩
    · intro a' h
      simp only [App.move_cursor_left, App.clamp_cursor, App.get_current_input,
        Option.map_some', Option.some.injEq] at h
      subst h
      exact ⟨hh, rfl, Nat.min_le_right _ _⟩
    · intro a' h
      simp only [App.move_cursor_right, App.clamp_cursor, App.get_current_input,
        Option.map_some', Option.some.injEq] at h
      subst h
      exact ⟨hh, rfl, Nat.min_le_right _ _⟩
    · intro c a' h
      simp only [App.enter_char, App.get_current_input, App.byte_index,
        App.set_current_input, App.move_cursor_right, App.clamp_cursor,
        Option.map_some', Option.some.injEq] at h
      subst h
      exact ⟨_, rfl, Nat.min_le_right _ _⟩
  | EditingBody =>
    obtain rfl : b = s := by simpa [App.get_current_input] using hf
    refine ⟨?_, ?_, ?_⟩
    · intro a' h
      simp only [App.move_cursor_left, App.clamp_cursor, App.get_current_input,
        Option.map_some', Option.some.injEq] at h
      subst h
      exact ⟨b, rfl, Nat.min_le_right _ _⟩
    · intro a' h
      simp only [App.move_cursor_right, App.clamp_cursor, App.get_current_input,
        Option.map_some', Option.some.injEq] at h
      subst h
      exact ⟨b, rfl, Nat.min_le_right _ _⟩
    · intro c a' h
      simp only [App.enter_char, App.get_current_input, App.byte_index,
        App.set_current_input, App.move_cursor_right, App.clamp_cursor,
        Option.map_some', Option.some.injEq] at h
      subst h
      exact ⟨_, rfl, Nat.min_le_right _ _⟩

theorem cursor_index_invariant_witness :
    ∃ s', (App.mk "ab".data [] [] 2 .EditingUrl [] none).get_current_input = some s' ∧
      (App.mk "ab".data [] [] 2 .EditingUrl [] none).character_index ≤ s'.length :=
  (cursor_index_invariant (App.mk "ab".data [] [] 1 .EditingUrl [] none) "ab".data
    rfl (by decide)).2.1 (App.mk "ab".data [] [] 2 .EditingUrl [] none) rfl

/-- C10: deleting at the start is a no-op — whenever character_index is 0,
delete_char returns the state unchanged, so url_input, headers_input,
body_input, character_index and error_message are all left as they were. -/
theorem delete_char_at_start_noop (a : App) (h : a.character_index = 0) :
    a.delete_char = some a := by
  unfold App.delete_char
  rw [if_pos h]

theorem delete_char_at_start_noop_witness :
    (App.mk "ab".data [] [] 0 .Normal [] none).delete_char =
      some (App.mk "ab".data [] [] 0 .Normal [] none) :=
  delete_char_at_start_noop (App.mk "ab".data [] [] 0 .Normal [] none) rfl
